import Mathlib

/-!
Shallow embedding of the `mcp-council` server core:
the JSON-RPC dispatch loop (`src/mcp.rs`) and the two staged tools
(`src/tools/peer_review.rs`, `src/tools/finalize.rs`).

External collaborators are modelled as function parameters:
* `parse : String → Option Json` models `serde_json::from_str` (parse outcome),
* `render : Json → String` models `serde_json` serialization,
* `llm : String → String → Except String String` models `cli_runner::run_llm`.

A council workspace directory is modelled as an association list from file
names to file contents (`Workspace`), in directory-enumeration order.
-/

namespace McpCouncil

/-- Model of `serde_json::Value` (numbers restricted to integers; no claim
touches numeric payloads). -/
inductive Json where
  | null : Json
  | bool : Bool → Json
  | num : Int → Json
  | str : String → Json
  | arr : List Json → Json
  | obj : List (String × Json) → Json

mutual

/-- Decidable equality for `Json` (the derive handler does not support the
nested occurrences of `List`). -/
def jsonDecEq : (a b : Json) → Decidable (a = b)
  | .null, .null => .isTrue rfl
  | .null, .bool _ => .isFalse (fun h => Json.noConfusion h)
  | .null, .num _ => .isFalse (fun h => Json.noConfusion h)
  | .null, .str _ => .isFalse (fun h => Json.noConfusion h)
  | .null, .arr _ => .isFalse (fun h => Json.noConfusion h)
  | .null, .obj _ => .isFalse (fun h => Json.noConfusion h)
  | .bool _, .null => .isFalse (fun h => Json.noConfusion h)
  | .bool x, .bool y =>
    if h : x = y then .isTrue (by rw [h])
    else .isFalse (by intro k; injection k with h2; exact h h2)
  | .bool _, .num _ => .isFalse (fun h => Json.noConfusion h)
  | .bool _, .str _ => .isFalse (fun h => Json.noConfusion h)
  | .bool _, .arr _ => .isFalse (fun h => Json.noConfusion h)
  | .bool _, .obj _ => .isFalse (fun h => Json.noConfusion h)
  | .num _, .null => .isFalse (fun h => Json.noConfusion h)
  | .num _, .bool _ => .isFalse (fun h => Json.noConfusion h)
  | .num x, .num y =>
    if h : x = y then .isTrue (by rw [h])
    else .isFalse (by intro k; injection k with h2; exact h h2)
  | .num _, .str _ => .isFalse (fun h => Json.noConfusion h)
  | .num _, .arr _ => .isFalse (fun h => Json.noConfusion h)
  | .num _, .obj _ => .isFalse (fun h => Json.noConfusion h)
  | .str _, .null => .isFalse (fun h => Json.noConfusion h)
  | .str _, .bool _ => .isFalse (fun h => Json.noConfusion h)
  | .str _, .num _ => .isFalse (fun h => Json.noConfusion h)
  | .str x, .str y =>
    if h : x = y then .isTrue (by rw [h])
    else .isFalse (by intro k; injection k with h2; exact h h2)
  | .str _, .arr _ => .isFalse (fun h => Json.noConfusion h)
  | .str _, .obj _ => .isFalse (fun h => Json.noConfusion h)
  | .arr _, .null => .isFalse (fun h => Json.noConfusion h)
  | .arr _, .bool _ => .isFalse (fun h => Json.noConfusion h)
  | .arr _, .num _ => .isFalse (fun h => Json.noConfusion h)
  | .arr _, .str _ => .isFalse (fun h => Json.noConfusion h)
  | .arr xs, .arr ys =>
    match jsonListDecEq xs ys with
    | .isTrue h => .isTrue (by rw [h])
    | .isFalse h => .isFalse (by intro k; injection k with h2; exact h h2)
  | .arr _, .obj _ => .isFalse (fun h => Json.noConfusion h)
  | .obj _, .null => .isFalse (fun h => Json.noConfusion h)
  | .obj _, .bool _ => .isFalse (fun h => Json.noConfusion h)
  | .obj _, .num _ => .isFalse (fun h => Json.noConfusion h)
  | .obj _, .str _ => .isFalse (fun h => Json.noConfusion h)
  | .obj _, .arr _ => .isFalse (fun h => Json.noConfusion h)
  | .obj xs, .obj ys =>
    match jsonFieldsDecEq xs ys with
    | .isTrue h => .isTrue (by rw [h])
    | .isFalse h => .isFalse (by intro k; injection k with h2; exact h h2)

/-- Decidable equality for lists of `Json`. -/
def jsonListDecEq : (a b : List Json) → Decidable (a = b)
  | [], [] => .isTrue rfl
  | [], _ :: _ => .isFalse (fun h => List.noConfusion h)
  | _ :: _, [] => .isFalse (fun h => List.noConfusion h)
  | x :: xs, y :: ys =>
    match jsonDecEq x y with
    | .isTrue h1 =>
      match jsonListDecEq xs ys with
      | .isTrue h2 => .isTrue (by rw [h1, h2])
      | .isFalse h2 => .isFalse (by intro k; injection k with a b; exact h2 b)
    | .isFalse h1 => .isFalse (by intro k; injection k with a b; exact h1 a)

/-- Decidable equality for JSON object field lists. -/
def jsonFieldsDecEq : (a b : List (String × Json)) → Decidable (a = b)
  | [], [] => .isTrue rfl
  | [], _ :: _ => .isFalse (fun h => List.noConfusion h)
  | _ :: _, [] => .isFalse (fun h => List.noConfusion h)
  | (k1, v1) :: xs, (k2, v2) :: ys =>
    if hk : k1 = k2 then
      match jsonDecEq v1 v2 with
      | .isTrue h1 =>
        match jsonFieldsDecEq xs ys with
        | .isTrue h2 => .isTrue (by rw [hk, h1, h2])
        | .isFalse h2 => .isFalse (by intro k; injection k with a b; exact h2 b)
      | .isFalse h1 =>
        .isFalse (by
          intro k; injection k with a b
          exact h1 (congrArg Prod.snd a))
    else
      .isFalse (by
        intro k; injection k with a b
        exact hk (congrArg Prod.fst a))

end

instance : DecidableEq Json := jsonDecEq

/-- First binding of a key in a JSON object field list. -/
def findField : List (String × Json) → String → Option Json
  | [], _ => none
  | (k', v) :: r, k => if k' = k then some v else findField r k

/-- Model of `Value::get(key)`: `some` only on objects holding the key. -/
def jGet : Json → String → Option Json
  | Json.obj fields, k => findField fields k
  | _, _ => none

/-- Model of `Value::as_str()`. -/
def asStr : Json → Option String
  | Json.str s => some s
  | _ => none

/-- `j.get(k).and_then(|v| v.as_str())`. -/
def getStr (j : Json) (k : String) : Option String :=
  (jGet j k).bind asStr

/-! ## Protocol server (`src/mcp.rs`) -/

/-- Model of the deserialized `McpRequest` struct. -/
structure McpRequest where
  jsonrpc : String
  id : Option Json
  method : String
  params : Option Json
deriving DecidableEq

/-- Model of the `McpError` struct. -/
structure McpError where
  code : Int
  message : String
  data : Option Json
deriving DecidableEq

/-- Model of the `McpResponse` struct. -/
structure McpResponse where
  jsonrpc : String
  id : Option Json
  result : Option Json
  error : Option McpError
deriving DecidableEq

/-- `handle_request`'s notification classification of the `id` field:
absent, null, boolean, array, or object ids make the message a notification. -/
def isNotificationId : Option Json → Bool
  | none => true
  | some Json.null => true
  | some (Json.bool _) => true
  | some (Json.arr _) => true
  | some (Json.obj _) => true
  | _ => false

/-- The static `initialize` result payload. -/
def initializeResult : Json :=
  Json.obj [
    ("protocolVersion", Json.str "2024-11-05"),
    ("capabilities", Json.obj [("tools", Json.obj [])]),
    ("serverInfo", Json.obj [
      ("name", Json.str "mcp-council"),
      ("version", Json.str "0.1.0")])]

/-- The static `tools/list` result payload. -/
def toolsListResult : Json :=
  Json.obj [("tools", Json.arr [
    Json.obj [
      ("name", Json.str "council.peer_review"),
      ("description", Json.str "Stage2: Read Stage1 JSON files and generate peer review using local LLM CLI"),
      ("inputSchema", Json.obj [
        ("type", Json.str "object"),
        ("properties", Json.obj [
          ("title", Json.obj [
            ("type", Json.str "string"),
            ("description", Json.str "Conversation title/directory name")]),
          ("engine", Json.obj [
            ("type", Json.str "string"),
            ("description", Json.str "LLM model/engine (examples: sonnet, gemini, gpt, grok)"),
            ("default", Json.str "claude")]),
          ("self_model", Json.obj [
            ("type", Json.str "string"),
            ("description", Json.str "Model name to exclude from peer review (its own response)")])]),
        ("required", Json.arr [Json.str "title"])])],
    Json.obj [
      ("name", Json.str "council.finalize"),
      ("description", Json.str "Stage3: Read Stage1 and Stage2 JSON files and generate final answer using local LLM CLI"),
      ("inputSchema", Json.obj [
        ("type", Json.str "object"),
        ("properties", Json.obj [
          ("title", Json.obj [
            ("type", Json.str "string"),
            ("description", Json.str "Conversation title/directory name")]),
          ("engine", Json.obj [
            ("type", Json.str "string"),
            ("description", Json.str "LLM model/engine (examples: sonnet, gemini, gpt, grok)"),
            ("default", Json.str "claude")])]),
        ("required", Json.arr [Json.str "title"])])]])]

/-- Wrapping of a successful tool result:
`json!({"content": [{"type": "text", "text": serde_json::to_string(&result)}]})`. -/
def wrapToolResult (render : Json → String) (result : Json) : Json :=
  Json.obj [("content", Json.arr [
    Json.obj [("type", Json.str "text"), ("text", Json.str (render result))]])]

/-- An error `McpResponse` as built inline in `handle_request`. -/
def errResponse (responseId : Option Json) (code : Int) (message : String) : McpResponse :=
  { jsonrpc := "2.0", id := responseId, result := none,
    error := some { code := code, message := message, data := none } }

/-- `handle_request` (src/mcp.rs:80-271), with the two awaited tool handlers
abstracted as `pr`/`fz : Json → Except String Json` acting on `arguments`.
`Except.error` models an `anyhow::Error` escaping via `?`;
`.ok none` models a suppressed (notification) response. -/
def handleRequest (render : Json → String) (pr fz : Json → Except String Json)
    (req : McpRequest) : Except String (Option McpResponse) :=
  let isNotif := isNotificationId req.id
  let responseId : Option Json := if isNotif then none else req.id
  let finish : Option Json → Except String (Option McpResponse) := fun result =>
    if isNotif then Except.ok none
    else Except.ok (some { jsonrpc := "2.0", id := responseId, result := result, error := none })
  if req.method = "initialize" then
    finish (some initializeResult)
  else if req.method = "tools/list" then
    finish (some toolsListResult)
  else if req.method = "tools/call" then
    match req.params with
    | none => Except.error "Missing params"
    | some params =>
      match getStr params "name" with
      | none => Except.error "Missing tool name"
      | some toolName =>
        let arguments := (jGet params "arguments").getD (Json.obj [])
        if toolName = "council.peer_review" then
          match pr arguments with
          | Except.ok result => finish (some (wrapToolResult render result))
          | Except.error e =>
            if isNotif then Except.ok none
            else Except.ok (some (errResponse responseId (-32603) ("Peer review failed: " ++ e)))
        else if toolName = "council.finalize" then
          match fz arguments with
          | Except.ok result => finish (some (wrapToolResult render result))
          | Except.error e =>
            if isNotif then Except.ok none
            else Except.ok (some (errResponse responseId (-32603) ("Finalize failed: " ++ e)))
        else
          if isNotif then Except.ok none
          else Except.ok (some (errResponse responseId (-32601) ("Unknown tool: " ++ toolName)))
  else
    if isNotif then Except.ok none
    else Except.ok (some (errResponse responseId (-32601) ("Method not found: " ++ req.method)))

/-- The output line the `run` loop emits for one parsed request:
`Ok(Some(response))` is serialized and written; `Ok(None)` and `Err(_)`
produce no output (src/mcp.rs:60-74). -/
def serverOutput (render : Json → String) (pr fz : Json → Except String Json)
    (req : McpRequest) : Option McpResponse :=
  match handleRequest render pr fz req with
  | Except.ok o => o
  | Except.error _ => none

/-! ## String utilities

The Rust code uses `str` methods (`trim`, `replace`, `starts_with`, ...).
They are re-implemented here over `List Char` so that every definition is
kernel-evaluable.  Whitespace is modelled as the ASCII whitespace set. -/

/-- ASCII whitespace (model of the whitespace class used by `str::trim`). -/
def wsChar (c : Char) : Bool := c = ' ' || c = '\t' || c = '\n' || c = '\r'

/-- `str::trim`: drop leading and trailing whitespace. -/
def strTrim (s : String) : String :=
  String.mk (((s.data.dropWhile wsChar).reverse.dropWhile wsChar).reverse)

/-- `str::starts_with`. -/
def strStartsWith (s pre : String) : Bool := pre.data.isPrefixOf s.data

/-- `str::ends_with`. -/
def strEndsWith (s suf : String) : Bool := suf.data.isSuffixOf s.data

/-- `str::contains` for a string pattern (substring test). -/
def strContains (s pat : String) : Bool := decide (pat.data <:+: s.data)

/-- Fuel-driven pass of `str::replace` over the character list: replace each
(leftmost, non-overlapping) occurrence of `pat` by `rep`.  Every step
consumes at least one character, so fuel `l.length` completes the pass. -/
def replaceAux (pat rep : List Char) : Nat → List Char → List Char
  | 0, l => l
  | _ + 1, [] => []
  | f + 1, c :: rest =>
    if pat ≠ [] ∧ pat.isPrefixOf (c :: rest) then
      rep ++ replaceAux pat rep f ((c :: rest).drop pat.length)
    else
      c :: replaceAux pat rep f rest

/-- `str::replace` (all occurrences). -/
def strReplace (s pat rep : String) : String :=
  String.mk (replaceAux pat.data rep.data s.data.length s.data)

/-- Split a character list at every occurrence of `sep` (model of the
splitting underlying `Path::file_stem`). -/
def splitOnChar (sep : Char) : List Char → List (List Char)
  | [] => [[]]
  | c :: rest =>
    match splitOnChar sep rest with
    | [] => [[c]]
    | h :: t => if c = sep then [] :: h :: t else (c :: h) :: t

/-- `Path::file_stem` for a bare file name: the whole name if it has no `.`,
the whole name if it starts with `.` and has no other `.`, otherwise the
portion before the final `.`. -/
def fileStem (name : String) : String :=
  match splitOnChar '.' name.data with
  | [] => name
  | [_] => name
  | [[], _] => name
  | parts => String.mk (List.intercalate ['.'] parts.dropLast)

/-- `str::join` with separator (model of `Vec::join`). -/
def strJoin (sep : String) : List String → String
  | [] => ""
  | [x] => x
  | x :: rest => x ++ sep ++ strJoin sep rest

/-- `u8::eq_ignore_ascii_case`, lifted pointwise: lower-case ASCII letters
before comparing. -/
def asciiLower (c : Char) : Char :=
  if 'A' ≤ c ∧ c ≤ 'Z' then Char.ofNat (c.toNat + 32) else c

/-- `str::eq_ignore_ascii_case`. -/
def eqIgnoreAsciiCase (a b : String) : Bool :=
  a.data.map asciiLower = b.data.map asciiLower

/-! ## Workspace model

A council workspace directory is an association list from file names to file
contents, listed in directory-enumeration order. -/

/-- A workspace directory: file name ↦ file content, in enumeration order. -/
abbrev Workspace := List (String × String)

/-- Read a file (`fs::read_to_string` of an existing file); `none` models a
missing file (`Path::exists` returning false). -/
def fsRead : Workspace → String → Option String
  | [], _ => none
  | (n, c) :: r, name => if n = name then some c else fsRead r name

/-- `fs::write`: overwrite in place if the name exists, else create (appended
at the end of the enumeration). -/
def fsWrite : Workspace → String → String → Workspace
  | [], name, content => [(name, content)]
  | (n, c) :: r, name, content =>
    if n = name then (name, content) :: r else (n, c) :: fsWrite r name content

/-- Removal of a file name (the delete half of `fs::rename`). -/
def fsRemove : Workspace → String → Workspace
  | [], _ => []
  | (n, c) :: r, name => if n = name then fsRemove r name else (n, c) :: fsRemove r name

/-- The file names of a workspace, in enumeration order. -/
def fsNames (fs : Workspace) : List String := fs.map Prod.fst

/-! ## Directory resolver (`find_council_dir`, identical in
`peer_review.rs` and `finalize.rs`)

The directory hierarchy above the current working directory is abstracted as
a predicate `hasCouncil : Nat → Bool` (`hasCouncil k` = the `k`-th ancestor
of the cwd contains a `.council` entry; `0` is the cwd itself) together with
`numParents`, the number of existing ancestors (`Path::parent` returns
`None` above index `numParents`).  The result is `some k` when the resolver
returns the `.council` of the `k`-th ancestor, and `none` for the final
fallback `<cwd>/.council`. -/

/-- The `for _ in 0..5` loop of `find_council_dir`: `fuel` iterations
starting at ancestor `p`. -/
def findCouncilLoop (hasCouncil : Nat → Bool) (numParents : Nat) :
    Nat → Nat → Option Nat
  | 0, _ => none
  | fuel + 1, p =>
    if hasCouncil p then some p
    else if p < numParents then findCouncilLoop hasCouncil numParents fuel (p + 1)
    else none

/-- `find_council_dir`: check `<cwd>/.council` first, then run the loop
(which starts at the cwd again) for 5 iterations. -/
def findCouncilDir (hasCouncil : Nat → Bool) (numParents : Nat) : Option Nat :=
  if hasCouncil 0 then some 0
  else findCouncilLoop hasCouncil numParents 5 0

/-! ## `preview_text` (`peer_review.rs:349`, `finalize.rs:350`)

`text.len()` is the UTF-8 byte length and `&text[..max_len]` slices at a byte
index, panicking when `max_len` is not a character boundary.  `none` models
the panic. -/

/-- Take exactly `n` bytes from a character list; `none` when `n` falls
inside a character (the slice panics). -/
def takeBytes : List Char → Nat → Option (List Char)
  | _, 0 => some []
  | [], _ + 1 => none
  | c :: cs, n + 1 =>
    if c.utf8Size ≤ n + 1 then (takeBytes cs (n + 1 - c.utf8Size)).map (c :: ·)
    else none

/-- UTF-8 byte length (`str::len`). -/
def strBytes (s : String) : Nat := (s.data.map Char.utf8Size).sum

/-- `preview_text`: the full text when it fits, else the first `maxLen`
bytes followed by `"..."`; `none` models the byte-slice panic. -/
def previewText (text : String) (maxLen : Nat) : Option String :=
  if strBytes text ≤ maxLen then some text
  else (takeBytes text.data maxLen).map (fun l => String.mk l ++ "...")

/-! ## Engine normalization (`peer_review.rs:39-61`) -/

/-- `char::is_ascii_alphanumeric`. -/
def isAsciiAlphanum (c : Char) : Bool :=
  (65 ≤ c.toNat && c.toNat ≤ 90) || (97 ≤ c.toNat && c.toNat ≤ 122) ||
    (48 ≤ c.toNat && c.toNat ≤ 57)

/-- `engine_raw.trim()` with empty-string fallback to `"claude"`
(`params["engine"].as_str().unwrap_or("claude")` feeding it). -/
def normEngine (engineArg : Option String) : String :=
  let t := strTrim (engineArg.getD "claude")
  if t = "" then "claude" else t

/-- The character class kept by the sanitizer: `[A-Za-z0-9_-]`. -/
def allowedChar (c : Char) : Bool := isAsciiAlphanum c || c = '-' || c = '_'

/-- Replace every character outside `[A-Za-z0-9_-]` with `'-'`. -/
def sanitizeEngine (e : String) : String :=
  String.mk (e.data.map (fun c => if allowedChar c then c else '-'))

/-- `str::trim_matches('-')`: strip all leading and trailing `'-'`. -/
def trimDash (s : String) : String :=
  String.mk (((s.data.dropWhile (· == '-')).reverse.dropWhile (· == '-')).reverse)

/-- `engine_for_file`: the sanitized engine, except that when the
dash-trimmed sanitized engine is empty the token falls back to `"claude"`;
otherwise the *un-trimmed* sanitized string is used. -/
def engineForFile (e : String) : String :=
  let sanitized := sanitizeEngine e
  if trimDash sanitized = "" then "claude" else sanitized

/-- The file name `peer-review-by-<engine_for_file>.md` written by
`handle_peer_review`. -/
def reviewFileName (engineArg : Option String) : String :=
  "peer-review-by-" ++ engineForFile (normEngine engineArg) ++ ".md"

/-! ## Artifact reader -/

/-- Stage1 candidate files: `*-answer.md|json` (substring or suffix). -/
def answerFilter (name : String) : Bool :=
  strContains name "-answer.md" || strEndsWith name "answer.md" ||
    strContains name "-answer.json" || strEndsWith name "answer.json"

/-- Stage1 JSON candidates used by `extract_user_query`. -/
def jsonAnswerFilter (name : String) : Bool :=
  strContains name "-answer.json" || strEndsWith name "answer.json"

/-- Stage2 candidate files: names containing `peer-review`. -/
def reviewFilter (name : String) : Bool := strContains name "peer-review"

/-- `model_from_name`: the file stem with `-answer` removed. -/
def modelFromName (name : String) : String :=
  strReplace (fileStem name) "-answer" ""

/-- `engine_from_name`: the file stem with `peer-review-by-` removed. -/
def engineFromName (name : String) : String :=
  strReplace (fileStem name) "peer-review-by-" ""

/-- `format_response_content`: field `response`, else field `content`, else
the value as a string, else serialized JSON (`render` models
`serde_json::to_string_pretty`). -/
def formatResponseContent (render : Json → String) (j : Json) : String :=
  match getStr j "response" with
  | some t => t
  | none =>
    match getStr j "content" with
    | some t => t
    | none =>
      match asStr j with
      | some t => t
      | none => render j

/-- `read_stage1_answer` on an existing file (name, raw content). -/
def readStage1 (parse : String → Option Json) (render : Json → String)
    (name raw : String) : Json :=
  match parse raw with
  | some j =>
    Json.obj [
      ("model", Json.str ((getStr j "model").getD (modelFromName name))),
      ("response", Json.str (formatResponseContent render j)),
      ("raw", j)]
  | none =>
    Json.obj [
      ("model", Json.str (modelFromName name)),
      ("response", Json.str raw),
      ("raw", Json.str raw)]

/-- `read_stage2_review` on an existing file (name, raw content). -/
def readStage2 (parse : String → Option Json) (render : Json → String)
    (name raw : String) : Json :=
  match parse raw with
  | some j =>
    Json.obj [
      ("engine", Json.str ((getStr j "engine").getD (engineFromName name))),
      ("review", Json.str ((getStr j "review").getD (formatResponseContent render j))),
      ("raw", j)]
  | none =>
    Json.obj [
      ("engine", Json.str (engineFromName name)),
      ("review", Json.str raw),
      ("raw", Json.str raw)]

/-- The loaded Stage1 answers, with their file names, in enumeration order. -/
def stage1List (parse : String → Option Json) (render : Json → String)
    (fs : Workspace) : List (String × Json) :=
  (fs.filter (fun p => answerFilter p.1)).map
    (fun p => (p.1, readStage1 parse render p.1 p.2))

/-- The loaded Stage2 reviews, in enumeration order. -/
def stage2List (parse : String → Option Json) (render : Json → String)
    (fs : Workspace) : List Json :=
  (fs.filter (fun p => reviewFilter p.1)).map
    (fun p => readStage2 parse render p.1 p.2)

/-- `content_value.get("model").and_then(as_str).unwrap_or("unknown-model")`. -/
def answerModel (a : Json) : String := (getStr a "model").getD "unknown-model"

/-- The `self_model` exclusion test (kept = not case-insensitively equal). -/
def keepAnswer (selfModel : Option String) (entry : String × Json) : Bool :=
  match selfModel with
  | none => true
  | some sm => !(eqIgnoreAsciiCase (answerModel entry.2) sm)

/-- The Stage1 answers surviving the `self_model` exclusion. -/
def peerSurvivors (parse : String → Option Json) (render : Json → String)
    (fs : Workspace) (selfModel : Option String) : List (String × Json) :=
  (stage1List parse render fs).filter (keepAnswer selfModel)

/-- `format!("Response {}", char::from(b'A' + idx as u8))`. -/
def labelOf (i : Nat) : String :=
  "Response " ++ String.mk [Char.ofNat ((65 + i) % 256)]

/-- The labels assigned to the survivors, in enumeration order. -/
def peerLabels (parse : String → Option Json) (render : Json → String)
    (fs : Workspace) (selfModel : Option String) : List String :=
  (List.range (peerSurvivors parse render fs selfModel).length).map labelOf

/-! ## `extract_user_query` (identical in both tool files) -/

/-- `extract_user_query`: fixed file names in order, else the `query` /
`user_query` field of the *first* Stage1 JSON file, else `"Unknown query"`. -/
def extractUserQuery (parse : String → Option Json) (fs : Workspace) : String :=
  match fsRead fs "query.txt" with
  | some c => strTrim c
  | none =>
  match fsRead fs "user_query.txt" with
  | some c => strTrim c
  | none =>
  match fsRead fs "question.txt" with
  | some c => strTrim c
  | none =>
  match fsRead fs "input.txt" with
  | some c => strTrim c
  | none =>
  match (fs.filter (fun p => jsonAnswerFilter p.1)).head? with
  | none => "Unknown query"
  | some (_, raw) =>
    match parse raw with
    | none => "Unknown query"
    | some j =>
      match (match jGet j "query" with
             | some v => some v
             | none => jGet j "user_query") with
      | some (Json.str s) => s
      | _ => "Unknown query"

/-! ## Legacy migrator (`peer_review.rs:197-229`) -/

/-- Filter of the legacy scan: `peer-review-*.md` without `-by-`. -/
def isLegacyName (name : String) : Bool :=
  strStartsWith name "peer-review-" && strEndsWith name ".md" &&
    !(strContains name "peer-review-by-")

/-- Fuel-driven repeated strip of a leading pattern
(`str::trim_start_matches`). -/
def stripStartAux (pat : List Char) : Nat → List Char → List Char
  | 0, l => l
  | f + 1, l =>
    if pat ≠ [] ∧ pat.isPrefixOf l then stripStartAux pat f (l.drop pat.length)
    else l

/-- `str::trim_start_matches(pat)`. -/
def stripStartRep (s pat : String) : String :=
  String.mk (stripStartAux pat.data s.data.length s.data)

/-- `str::trim_end_matches(pat)`. -/
def stripEndRep (s pat : String) : String :=
  String.mk (stripStartAux pat.data.reverse s.data.length s.data.reverse).reverse

/-- The engine token recovered from a legacy file name:
`trim_start_matches("peer-review-").trim_end_matches(".md")`. -/
def legacyTok (name : String) : String :=
  stripEndRep (stripStartRep name "peer-review-") ".md"

/-- The canonical destination for an engine token. -/
def destOf (tok : String) : String := "peer-review-by-" ++ tok ++ ".md"

/-- One iteration of the legacy scan: rename
`peer-review-<tok>.md` → `peer-review-by-<tok>.md` when the filter matches,
the token is non-empty and the destination does not exist. -/
def migStep (fs : Workspace) (name : String) : Workspace :=
  if isLegacyName name then
    if legacyTok name ≠ "" then
      if (fsRead fs (destOf (legacyTok name))).isNone then
        match fsRead fs name with
        | some c => fsWrite (fsRemove fs name) (destOf (legacyTok name)) c
        | none => fs
      else fs
    else fs
  else fs

/-- The legacy scan over a directory snapshot. -/
def migrateLoop (names : List String) (fs : Workspace) : Workspace :=
  names.foldl migStep fs

/-- The bare-name migration: rename `peer-review.md` to the current review
path when the former exists and the latter does not. -/
def migrateBare (fs : Workspace) (dest : String) : Workspace :=
  match fsRead fs "peer-review.md" with
  | some c => if (fsRead fs dest).isNone then fsWrite (fsRemove fs "peer-review.md") dest c else fs
  | none => fs

/-- The full filesystem effect of a successful `handle_peer_review`: bare
migration, legacy scan over the resulting directory snapshot, then the
write of the new review file. -/
def peerWriteFs (fs : Workspace) (dest md : String) : Workspace :=
  fsWrite (migrateLoop (fsNames (migrateBare fs dest)) (migrateBare fs dest)) dest md

/-! ## Prompt builders and markdowns -/

/-- The labelled `Response X:\n<content>` blocks joined by blank lines. -/
def peerResponsesText (parse : String → Option Json) (render : Json → String)
    (fs : Workspace) (selfModel : Option String) : String :=
  strJoin "\n\n" ((peerSurvivors parse render fs selfModel).enum.map
    (fun ie => labelOf ie.1 ++ ":\n" ++ formatResponseContent render ie.2.2))

/-- The stage-2 ranking prompt template. -/
def rankingPrompt (userQuery responsesText : String) : String :=
  "You are evaluating different responses to the following question:\n\nQuestion: "
    ++ userQuery
    ++ "\n\nHere are the responses from different models (anonymized):\n\n"
    ++ responsesText
    ++ "\n\nYour task:\n1. First, evaluate each response individually. For each response, explain what it does well and what it does poorly.\n2. Then, at the very end of your response, provide a final ranking.\n\nIMPORTANT: Your final ranking MUST be formatted EXACTLY as follows:\n- Start with the line \"FINAL RANKING:\" (all caps, with colon)\n- Then list the responses from best to worst as a numbered list\n- Each line should be: number, period, space, then ONLY the response label (e.g., \"1. Response A\")\n- Do not add any other text or explanations in the ranking section\n\nExample of the correct format for your ENTIRE response:\n\nResponse A provides good detail on X but misses Y...\nResponse B is accurate but lacks depth on Z...\nResponse C offers the most comprehensive answer...\n\nFINAL RANKING:\n1. Response C\n2. Response A\n3. Response B\n\nNow provide your evaluation and ranking:"

/-- `build_review_markdown`. -/
def buildReviewMarkdown (title engine : String) (userQuery : String)
    (answerCount : Nat) (reviewOutput : String) : String :=
  "# Peer Review\n- title: " ++ title ++ "\n- engine: " ++ engine
    ++ "\n- answers reviewed: " ++ toString answerCount
    ++ "\n\n## User Question\n" ++ userQuery
    ++ "\n\n## Review\n" ++ reviewOutput

/-- The `Model:`/`Response:` blocks of the chairman prompt. -/
def stage1Text (parse : String → Option Json) (render : Json → String)
    (fs : Workspace) : String :=
  strJoin "\n\n" ((stage1List parse render fs).enum.map (fun ie =>
    "Model: " ++ ((getStr ie.2.2 "model").getD ("Model " ++ toString (ie.1 + 1)))
      ++ "\nResponse: " ++ formatResponseContent render ie.2.2))

/-- The `Model:`/`Ranking:` blocks of the chairman prompt. -/
def stage2Text (parse : String → Option Json) (render : Json → String)
    (fs : Workspace) : String :=
  strJoin "\n\n" ((stage2List parse render fs).enum.map (fun ie =>
    "Model: " ++ ((getStr ie.2 "engine").getD ("Reviewer " ++ toString (ie.1 + 1)))
      ++ "\nRanking: " ++ ((getStr ie.2 "review").getD "No review content")))

/-- The stage-3 chairman prompt template. -/
def chairmanPrompt (parse : String → Option Json) (render : Json → String)
    (fs : Workspace) : String :=
  "You are the Chairman of an LLM Council. Multiple AI models have provided responses to a user\x27s question, and then ranked each other\x27s responses.\n\nOriginal Question: "
    ++ extractUserQuery parse fs
    ++ "\n\nSTAGE 1 - Individual Responses:\n"
    ++ stage1Text parse render fs
    ++ "\n\nSTAGE 2 - Peer Rankings:\n"
    ++ stage2Text parse render fs
    ++ "\n\nYour task as Chairman is to synthesize all of this information into a single, comprehensive, accurate answer to the user\x27s original question. Consider:\n- The individual responses and their insights\n- The peer rankings and what they reveal about response quality\n- Any patterns of agreement or disagreement\n\nProvide a clear, well-reasoned final answer that represents the council\x27s collective wisdom:"

/-- `build_final_markdown`. -/
def buildFinalMarkdown (title engine : String) (userQuery : String)
    (stage1Count stage2Count : Nat) (finalOutput : String) : String :=
  "# Final Answer\n- title: " ++ title ++ "\n- engine: " ++ engine
    ++ "\n- stage1 responses: " ++ toString stage1Count
    ++ "\n- stage2 reviews: " ++ toString stage2Count
    ++ "\n\n## User Question\n" ++ userQuery
    ++ "\n\n## Final Answer\n" ++ finalOutput

/-! ## Stage runners -/

/-- The markdown written by a successful `handle_peer_review`. -/
def peerMarkdown (parse : String → Option Json) (render : Json → String)
    (title : String) (engineArg selfModel : Option String)
    (fs : Workspace) (reviewOutput : String) : String :=
  buildReviewMarkdown title (normEngine engineArg) (extractUserQuery parse fs)
    (peerSurvivors parse render fs selfModel).length reviewOutput

/-- `handle_peer_review` (`peer_review.rs:35-243`), at the level of an
already-resolved, existing workspace directory.  `baseDir` is the display
string of the workspace path (used in messages and the returned file path).
The returned workspace is the directory content after the call. -/
def handlePeerReview (parse : String → Option Json) (render : Json → String)
    (llm : String → String → Except String String)
    (title baseDir : String) (engineArg selfModel : Option String)
    (fs : Workspace) : Except String (Workspace × Json) :=
  if stage1List parse render fs = [] then
    Except.error ("No Stage1 answer files found in " ++ baseDir)
  else if peerSurvivors parse render fs selfModel = [] then
    Except.error "No Stage1 answers available after applying self_model exclusion"
  else
    match llm (normEngine engineArg)
        (rankingPrompt (extractUserQuery parse fs)
          (peerResponsesText parse render fs selfModel)) with
    | Except.error e => Except.error ("Failed to run LLM CLI for peer review: " ++ e)
    | Except.ok reviewOutput =>
      match previewText reviewOutput 200 with
      | none => Except.error "panicked: byte index is not a char boundary"
      | some pv =>
        Except.ok
          (peerWriteFs fs (reviewFileName engineArg)
            (peerMarkdown parse render title engineArg selfModel fs reviewOutput),
          Json.obj [
            ("success", Json.bool true),
            ("review_markdown_file", Json.str (baseDir ++ "/" ++ reviewFileName engineArg)),
            ("summary", Json.str ("Peer review completed for "
              ++ toString (peerSurvivors parse render fs selfModel).length
              ++ " answers using " ++ normEngine engineArg)),
            ("review_preview", Json.str pv),
            ("markdown", Json.str (peerMarkdown parse render title engineArg selfModel fs reviewOutput))])

/-- The file name `final-answer-by-<engine>.md` written by `handle_finalize`:
the caller-supplied engine is used verbatim (only the missing-parameter
default `"claude"` applies). -/
def finalFileName (engineArg : Option String) : String :=
  "final-answer-by-" ++ engineArg.getD "claude" ++ ".md"

/-- `handle_finalize` (`finalize.rs:35-206`), at the level of an
already-resolved, existing workspace directory. -/
def handleFinalize (parse : String → Option Json) (render : Json → String)
    (llm : String → String → Except String String)
    (title baseDir : String) (engineArg : Option String)
    (fs : Workspace) : Except String (Workspace × Json) :=
  if stage1List parse render fs = [] then
    Except.error ("No Stage1 answer files found in " ++ baseDir)
  else if stage2List parse render fs = [] then
    Except.error "No Stage2 review files found. Please run peer_review first."
  else
    match llm (engineArg.getD "claude") (chairmanPrompt parse render fs) with
    | Except.error e => Except.error ("Failed to run LLM CLI for finalization: " ++ e)
    | Except.ok finalOutput =>
      match previewText finalOutput 300 with
      | none => Except.error "panicked: byte index is not a char boundary"
      | some pv =>
        Except.ok
          (fsWrite fs (finalFileName engineArg)
            (buildFinalMarkdown title (engineArg.getD "claude")
              (extractUserQuery parse fs)
              (stage1List parse render fs).length
              (stage2List parse render fs).length finalOutput),
          Json.obj [
            ("success", Json.bool true),
            ("final_markdown_file", Json.str (baseDir ++ "/" ++ finalFileName engineArg)),
            ("summary", Json.str ("Final answer generated using " ++ engineArg.getD "claude"
              ++ " based on " ++ toString (stage1List parse render fs).length
              ++ " responses and " ++ toString (stage2List parse render fs).length
              ++ " reviews")),
            ("final_answer_preview", Json.str pv),
            ("markdown", Json.str (buildFinalMarkdown title (engineArg.getD "claude")
              (extractUserQuery parse fs)
              (stage1List parse render fs).length
              (stage2List parse render fs).length finalOutput))])

/-- The workspace of a tool result (empty on error; used only to state
closed evaluations of successful calls). -/
def resultFs (r : Except String (Workspace × Json)) : Workspace :=
  match r with
  | Except.ok p => p.1
  | Except.error _ => []

/-- Whether a tool call succeeded. -/
def resultOk (r : Except String (Workspace × Json)) : Bool :=
  match r with
  | Except.ok _ => true
  | Except.error _ => false

/-- The payload of a tool result (used only to state closed evaluations). -/
def resultVal (r : Except String (Workspace × Json)) : Json :=
  match r with
  | Except.ok p => p.2
  | Except.error _ => Json.null

/-! ## Helper lemmas on the workspace model -/

theorem fsRead_fsWrite_self (fs : Workspace) (n c : String) :
    fsRead (fsWrite fs n c) n = some c := by
  induction fs with
  | nil => simp [fsWrite, fsRead]
  | cons p r ih =>
    by_cases h : p.1 = n
    · simp [fsWrite, fsRead, h]
    · simp [fsWrite, fsRead, h, ih]

theorem fsNames_cons (a b : String) (r : Workspace) :
    fsNames ((a, b) :: r) = a :: fsNames r := rfl

theorem fsRead_fsWrite_ne (fs : Workspace) (n c m : String) (h : m ≠ n) :
    fsRead (fsWrite fs n c) m = fsRead fs m := by
  induction fs with
  | nil =>
    have hn : n ≠ m := fun he => h he.symm
    simp [fsWrite, fsRead, hn]
  | cons p r ih =>
    obtain ⟨a, b⟩ := p
    by_cases hp : a = n
    · subst hp
      have hn : a ≠ m := fun he => h he.symm
      simp [fsWrite, fsRead, hn]
    · simp [fsWrite, fsRead, hp, ih]

theorem fsRead_fsRemove_ne (fs : Workspace) (n m : String) (h : m ≠ n) :
    fsRead (fsRemove fs n) m = fsRead fs m := by
  induction fs with
  | nil => simp [fsRemove]
  | cons p r ih =>
    obtain ⟨a, b⟩ := p
    by_cases hp : a = n
    · subst hp
      have hn : a ≠ m := fun he => h he.symm
      simp [fsRemove, fsRead, hn, ih]
    · simp [fsRemove, fsRead, hp, ih]

theorem fsRead_fsRemove_self (fs : Workspace) (n : String) :
    fsRead (fsRemove fs n) n = none := by
  induction fs with
  | nil => simp [fsRemove, fsRead]
  | cons p r ih =>
    obtain ⟨a, b⟩ := p
    by_cases hp : a = n
    · simp [fsRemove, hp, ih]
    · simp [fsRemove, fsRead, hp, ih]

theorem mem_fsNames_of_fsRead (fs : Workspace) (n c : String)
    (h : fsRead fs n = some c) : n ∈ fsNames fs := by
  induction fs with
  | nil => simp [fsRead] at h
  | cons p r ih =>
    obtain ⟨a, b⟩ := p
    rw [fsNames_cons, List.mem_cons]
    by_cases hp : a = n
    · exact Or.inl hp.symm
    · simp [fsRead, hp] at h
      exact Or.inr (ih h)

theorem mem_fsNames_fsWrite (fs : Workspace) (n c m : String)
    (h : m ∈ fsNames (fsWrite fs n c)) : m = n ∨ m ∈ fsNames fs := by
  induction fs with
  | nil =>
    rw [show fsWrite [] n c = [(n, c)] from rfl] at h
    rw [fsNames_cons, List.mem_cons] at h
    rcases h with h | h
    · exact Or.inl h
    · simp [fsNames] at h
  | cons p r ih =>
    obtain ⟨a, b⟩ := p
    rw [fsNames_cons, List.mem_cons]
    by_cases hp : a = n
    · rw [show fsWrite ((a, b) :: r) n c = (n, c) :: r from by simp [fsWrite, hp]] at h
      rw [fsNames_cons, List.mem_cons] at h
      rcases h with h | h
      · exact Or.inl h
      · exact Or.inr (Or.inr h)
    · rw [show fsWrite ((a, b) :: r) n c = (a, b) :: fsWrite r n c from by
        simp [fsWrite, hp]] at h
      rw [fsNames_cons, List.mem_cons] at h
      rcases h with h | h
      · exact Or.inr (Or.inl h)
      · rcases ih h with h2 | h2
        · exact Or.inl h2
        · exact Or.inr (Or.inr h2)

theorem mem_fsNames_fsRemove (fs : Workspace) (n m : String)
    (h : m ∈ fsNames (fsRemove fs n)) : m ∈ fsNames fs := by
  induction fs with
  | nil => simpa [fsRemove] using h
  | cons p r ih =>
    obtain ⟨a, b⟩ := p
    rw [fsNames_cons, List.mem_cons]
    by_cases hp : a = n
    · rw [show fsRemove ((a, b) :: r) n = fsRemove r n from by simp [fsRemove, hp]] at h
      exact Or.inr (ih h)
    · rw [show fsRemove ((a, b) :: r) n = (a, b) :: fsRemove r n from by
        simp [fsRemove, hp]] at h
      rw [fsNames_cons, List.mem_cons] at h
      rcases h with h | h
      · exact Or.inl h
      · exact Or.inr (ih h)

/-! ## Helper lemmas on strings -/

theorem destOf_inj {a b : String} (h : destOf a = destOf b) : a = b := by
  unfold destOf at h
  have h2 : ("peer-review-by-" ++ a ++ ".md").data = ("peer-review-by-" ++ b ++ ".md").data := by
    rw [h]
  simp only [String.data_append] at h2
  rw [List.append_assoc, List.append_assoc] at h2
  exact String.ext (List.append_cancel_right (List.append_cancel_left h2))

theorem strContains_destOf (t : String) :
    strContains (destOf t) "peer-review-by-" = true := by
  unfold strContains destOf
  rw [decide_eq_true_iff]
  exact ⟨[], t.data ++ ".md".data, by simp [String.data_append]⟩

theorem ne_of_strContains {x y p : String}
    (hx : strContains x p = true) (hy : strContains y p = false) : y ≠ x := by
  intro he
  rw [he, hx] at hy
  exact Bool.noConfusion hy

theorem isLegacyName_eq_false_of_contains {n : String}
    (h : strContains n "peer-review-by-" = true) : isLegacyName n = false := by
  simp [isLegacyName, h]

theorem not_contains_of_isLegacyName {n : String}
    (h : isLegacyName n = true) : strContains n "peer-review-by-" = false := by
  simp [isLegacyName] at h
  tauto

/-! ## Helper lemmas on the legacy migrator -/

/-- A file that does not contain `peer-review-by-` and is not the scanned
entry itself is untouched by one migration step. -/
theorem migStep_read_untouched (fs : Workspace) (name x : String)
    (hx : strContains x "peer-review-by-" = false) (hxn : x ≠ name) :
    fsRead (migStep fs name) x = fsRead fs x := by
  unfold migStep
  split
  · rename_i hl
    split
    · split
      · split
        · rename_i c heq
          have hxd : x ≠ destOf (legacyTok name) :=
            ne_of_strContains (strContains_destOf _) hx
          rw [fsRead_fsWrite_ne _ _ _ _ hxd, fsRead_fsRemove_ne _ _ _ hxn]
        · rfl
      · rfl
    · rfl
  · rfl

/-- An absent file that does not contain `peer-review-by-` stays absent
across one migration step. -/
theorem migStep_read_none (fs : Workspace) (name x : String)
    (hx : strContains x "peer-review-by-" = false)
    (h : fsRead fs x = none) : fsRead (migStep fs name) x = none := by
  by_cases hxn : x = name
  · subst hxn
    unfold migStep
    split
    · split
      · split
        · split
          · rename_i c heq
            rw [h] at heq
            exact Option.noConfusion heq
          · exact h
        · exact h
      · exact h
    · exact h
  · rw [migStep_read_untouched fs name x hx hxn]
    exact h

/-- A present file whose name contains `peer-review-by-` keeps its content
across one migration step. -/
theorem migStep_read_present (fs : Workspace) (name d c : String)
    (hd : strContains d "peer-review-by-" = true)
    (h : fsRead fs d = some c) : fsRead (migStep fs name) d = some c := by
  unfold migStep
  split
  · rename_i hl
    split
    · split
      · rename_i hnone
        split
        · rename_i c2 heq
          have hdd : d ≠ destOf (legacyTok name) := by
            intro he
            rw [← he, h] at hnone
            exact Bool.noConfusion hnone
          have hdn : d ≠ name :=
            Ne.symm (ne_of_strContains hd (not_contains_of_isLegacyName hl))
          rw [fsRead_fsWrite_ne _ _ _ _ hdd, fsRead_fsRemove_ne _ _ _ hdn]
          exact h
        · exact h
      · exact h
    · exact h
  · exact h

/-- When no entry with `isLegacyName` recovers the token `gemini`, one
migration step leaves `peer-review-by-gemini.md` unchanged. -/
theorem migStep_read_dest_unique (fs : Workspace) (name : String)
    (hu : ¬(isLegacyName name = true ∧ legacyTok name = "gemini")) :
    fsRead (migStep fs name) "peer-review-by-gemini.md" =
      fsRead fs "peer-review-by-gemini.md" := by
  unfold migStep
  split
  · rename_i hl
    have ht : legacyTok name ≠ "gemini" := fun hg => hu ⟨hl, hg⟩
    split
    · split
      · split
        · rename_i c heq
          have hdd : "peer-review-by-gemini.md" ≠ destOf (legacyTok name) := by
            intro he
            exact ht (destOf_inj
              ((show destOf "gemini" = "peer-review-by-gemini.md" from rfl).trans he)).symm
          have hdn : "peer-review-by-gemini.md" ≠ name :=
            Ne.symm (ne_of_strContains (by decide) (not_contains_of_isLegacyName hl))
          rw [fsRead_fsWrite_ne _ _ _ _ hdd, fsRead_fsRemove_ne _ _ _ hdn]
        · rfl
      · rfl
    · rfl
  · rfl

/-- A present `-by-` file survives the whole legacy scan with its content. -/
theorem migrateLoop_preserve_present (names : List String) :
    ∀ (fs : Workspace) (d c : String), strContains d "peer-review-by-" = true →
      fsRead fs d = some c → fsRead (migrateLoop names fs) d = some c := by
  induction names with
  | nil => intro fs d c _ h; exact h
  | cons name rest ih =>
    intro fs d c hd h
    exact ih (migStep fs name) d c hd (migStep_read_present fs name d c hd h)

/-- An absent non-`-by-` file stays absent through the whole legacy scan. -/
theorem migrateLoop_preserve_absent (names : List String) :
    ∀ (fs : Workspace) (x : String), strContains x "peer-review-by-" = false →
      fsRead fs x = none → fsRead (migrateLoop names fs) x = none := by
  induction names with
  | nil => intro fs x _ h; exact h
  | cons name rest ih =>
    intro fs x hx h
    exact ih (migStep fs name) x hx (migStep_read_none fs name x hx h)

/-- The legacy scan migrates `peer-review-gemini.md` to
`peer-review-by-gemini.md` (content preserved, source removed), provided the
destination is absent and no other scanned entry recovers the same token. -/
theorem migrateLoop_migrates (names : List String) :
    ∀ (fs : Workspace) (c : String),
      "peer-review-gemini.md" ∈ names →
      fsRead fs "peer-review-gemini.md" = some c →
      fsRead fs "peer-review-by-gemini.md" = none →
      (∀ n ∈ names, n ≠ "peer-review-gemini.md" →
        ¬(isLegacyName n = true ∧ legacyTok n = "gemini")) →
      fsRead (migrateLoop names fs) "peer-review-by-gemini.md" = some c ∧
      fsRead (migrateLoop names fs) "peer-review-gemini.md" = none := by
  induction names with
  | nil => intro fs c hmem; simp at hmem
  | cons name rest ih =>
    intro fs c hmem hsrc hdst huniq
    rw [show migrateLoop (name :: rest) fs = migrateLoop rest (migStep fs name) from rfl]
    by_cases hname : name = "peer-review-gemini.md"
    · subst hname
      have h1 : isLegacyName "peer-review-gemini.md" = true := by decide
      have h2 : legacyTok "peer-review-gemini.md" = "gemini" := by decide
      have h3 : destOf "gemini" = "peer-review-by-gemini.md" := rfl
      have h4 : ("gemini" : String) ≠ "" := by decide
      have hstep : migStep fs "peer-review-gemini.md" =
          fsWrite (fsRemove fs "peer-review-gemini.md") "peer-review-by-gemini.md" c := by
        unfold migStep
        rw [if_pos h1, h2, h3, if_pos h4, hdst]
        rw [show (none : Option String).isNone = true from rfl, if_pos rfl, hsrc]
      constructor
      · apply migrateLoop_preserve_present rest _ _ _ (by decide)
        rw [hstep, fsRead_fsWrite_self]
      · apply migrateLoop_preserve_absent rest _ _ (by decide)
        rw [hstep, fsRead_fsWrite_ne _ _ _ _ (by decide), fsRead_fsRemove_self]
    · have hu : ¬(isLegacyName name = true ∧ legacyTok name = "gemini") :=
        huniq name (List.mem_cons_self _ _) hname
      have hmem2 : "peer-review-gemini.md" ∈ rest := by
        rcases List.mem_cons.mp hmem with h | h
        · exact absurd h.symm hname
        · exact h
      have hs : fsRead (migStep fs name) "peer-review-gemini.md" = some c := by
        rw [migStep_read_untouched fs name _ (by decide) (fun he => hname he.symm)]
        exact hsrc
      have hd2 : fsRead (migStep fs name) "peer-review-by-gemini.md" = none := by
        rw [migStep_read_dest_unique fs name hu]
        exact hdst
      exact ih (migStep fs name) c hmem2 hs hd2
        (fun n hn hne => huniq n (List.mem_cons_of_mem _ hn) hne)

/-- Files other than the bare `peer-review.md` and the current review path
are untouched by the bare migration. -/
theorem migrateBare_read_ne (fs : Workspace) (dest x : String)
    (h1 : x ≠ dest) (h2 : x ≠ "peer-review.md") :
    fsRead (migrateBare fs dest) x = fsRead fs x := by
  unfold migrateBare
  split
  · rename_i c heq
    split
    · rw [fsRead_fsWrite_ne _ _ _ _ h1, fsRead_fsRemove_ne _ _ _ h2]
    · rfl
  · rfl

/-- Names present after the bare migration were present before, or are the
destination. -/
theorem mem_fsNames_migrateBare (fs : Workspace) (dest m : String)
    (h : m ∈ fsNames (migrateBare fs dest)) : m = dest ∨ m ∈ fsNames fs := by
  unfold migrateBare at h
  split at h
  · split at h
    · rcases mem_fsNames_fsWrite _ _ _ _ h with h2 | h2
      · exact Or.inl h2
      · exact Or.inr (mem_fsNames_fsRemove _ _ _ h2)
    · exact Or.inr h
  · exact Or.inr h

/-- Splitting a count over a predicate and its negation. -/
theorem countP_add_countP_not {α : Type} (l : List α) (p : α → Bool) :
    l.countP p + l.countP (fun a => !p a) = l.length := by
  induction l with
  | nil => simp
  | cons a t ih => by_cases h : p a <;> simp [List.countP_cons, h] <;> omega

/-! ## Success-shape inversion of the two stage runners -/

/-- A successful `handle_peer_review` ends in the migrate-then-write
filesystem effect at the sanitized review path. -/
theorem handlePeerReview_ok_shape (parse : String → Option Json)
    (render : Json → String) (llm : String → String → Except String String)
    (title baseDir : String) (engineArg selfModel : Option String)
    (fs fsOut : Workspace) (v : Json)
    (h : handlePeerReview parse render llm title baseDir engineArg selfModel fs =
      Except.ok (fsOut, v)) :
    ∃ md, fsOut = peerWriteFs fs (reviewFileName engineArg) md := by
  unfold handlePeerReview at h
  split at h
  · exact Except.noConfusion h
  · split at h
    · exact Except.noConfusion h
    · split at h
      · exact Except.noConfusion h
      · split at h
        · exact Except.noConfusion h
        · injection h with hp
          exact ⟨_, (congrArg Prod.fst hp).symm⟩

/-- A successful `handle_finalize` ends in a plain write of
`final-answer-by-<engine>.md`. -/
theorem handleFinalize_ok_shape (parse : String → Option Json)
    (render : Json → String) (llm : String → String → Except String String)
    (title baseDir : String) (engineArg : Option String)
    (fs fsOut : Workspace) (v : Json)
    (h : handleFinalize parse render llm title baseDir engineArg fs =
      Except.ok (fsOut, v)) :
    ∃ md, fsOut = fsWrite fs (finalFileName engineArg) md := by
  unfold handleFinalize at h
  split at h
  · exact Except.noConfusion h
  · split at h
    · exact Except.noConfusion h
    · split at h
      · exact Except.noConfusion h
      · split at h
        · exact Except.noConfusion h
        · injection h with hp
          exact ⟨_, (congrArg Prod.fst hp).symm⟩

/-! ## Concrete collaborators used by witnesses -/

/-- A parser under which every file is treated as plain text. -/
def parseNone : String → Option Json := fun _ => none

/-- A fixed serializer. -/
def renderConst : Json → String := fun _ => "json"

/-- A collaborator that always answers `"O"`. -/
def llmOk : String → String → Except String String := fun _ _ => Except.ok "O"

/-- A tool handler that always succeeds with `null`. -/
def toolOk : Json → Except String Json := fun _ => Except.ok Json.null

/-! ## Claims -/

/-- **C1, counterexample.**  The true request
`{"jsonrpc":"2.0","id":1,"method":"tools/call"}` (bare number id, `params`
missing) produces *no* output line at all — not the claimed single
JSON-RPC `-32603` error response: `handle_request` escapes with an error
that the `run` loop merely logs. -/
theorem C1_counterexample :
    isNotificationId (some (Json.num 1)) = false ∧
    serverOutput renderConst toolOk toolOk
      { jsonrpc := "2.0", id := some (Json.num 1), method := "tools/call",
        params := none } = none :=
  ⟨rfl, rfl⟩

/-- **C1, amended.**  For a `tools/call` message with a bare (string/number)
id, a missing `params` or a missing/non-string `params.name` makes
`handle_request` return an error (`"Missing params"` / `"Missing tool
name"`), which the `run` loop logs and drops: no response line is emitted,
neither an error response nor a success response. -/
theorem C1_amended_missing_params_is_dropped (render : Json → String)
    (pr fz : Json → Except String Json) (id : Json)
    (_hid : isNotificationId (some id) = false) :
    (handleRequest render pr fz
        { jsonrpc := "2.0", id := some id, method := "tools/call", params := none } =
        Except.error "Missing params" ∧
      serverOutput render pr fz
        { jsonrpc := "2.0", id := some id, method := "tools/call", params := none } = none) ∧
    (∀ params : Json, getStr params "name" = none →
      handleRequest render pr fz
        { jsonrpc := "2.0", id := some id, method := "tools/call", params := some params } =
        Except.error "Missing tool name" ∧
      serverOutput render pr fz
        { jsonrpc := "2.0", id := some id, method := "tools/call", params := some params } = none) := by
  constructor
  · exact ⟨rfl, rfl⟩
  · intro params hp
    constructor
    · unfold handleRequest
      simp only [hp]
      rfl
    · unfold serverOutput handleRequest
      simp only [hp]
      rfl

/-- **C1, amended, witness.** -/
theorem C1_amended_witness :
    handleRequest renderConst toolOk toolOk
      { jsonrpc := "2.0", id := some (Json.str "7"), method := "tools/call",
        params := some (Json.obj []) } = Except.error "Missing tool name" :=
  ((C1_amended_missing_params_is_dropped renderConst toolOk toolOk
    (Json.str "7") rfl).2 (Json.obj []) rfl).1

/-- **C2.**  A message whose id is absent, null, boolean, array or object (a
notification) never produces an output line, whatever the method and
whatever the handlers do; conversely any emitted response belongs to a
message with a bare string/number id. -/
theorem C2_notifications_never_produce_output (render : Json → String)
    (pr fz : Json → Except String Json) (req : McpRequest) :
    (isNotificationId req.id = true → serverOutput render pr fz req = none) ∧
    (∀ resp, serverOutput render pr fz req = some resp →
      isNotificationId req.id = false) := by
  have main : isNotificationId req.id = true → serverOutput render pr fz req = none := by
    intro hn
    have h : ∀ o, handleRequest render pr fz req = Except.ok o → o = none := by
      intro o ho
      unfold handleRequest at ho
      simp only [hn, if_true] at ho
      repeat' split at ho
      all_goals
        first
          | exact Except.noConfusion ho
          | (injection ho with h2; exact h2.symm)
    unfold serverOutput
    cases hr : handleRequest render pr fz req with
    | ok o => exact h o hr
    | error e => rfl
  refine ⟨main, ?_⟩
  intro resp hresp
  by_cases hn : isNotificationId req.id
  · rw [main hn] at hresp
    exact Option.noConfusion hresp
  · exact Bool.not_eq_true _ ▸ Bool.of_not_eq_true hn

/-- **C2, witness.** -/
theorem C2_witness :
    serverOutput renderConst toolOk toolOk
      { jsonrpc := "2.0", id := some Json.null, method := "tools/call",
        params := none } = none :=
  (C2_notifications_never_produce_output renderConst toolOk toolOk _).1 rfl

/-- **C3.**  On a workspace with at least one Stage1 answer file and no file
whose name contains `peer-review`, `handle_finalize` fails — for *every*
collaborator, so before the LLM is invoked — with the fixed message
mentioning `Stage2`, and returns no written workspace (no final-answer file
is created). -/
theorem C3_finalize_requires_stage2 (parse : String → Option Json)
    (render : Json → String) (llm : String → String → Except String String)
    (title baseDir : String) (engineArg : Option String) (fs : Workspace)
    (h1 : stage1List parse render fs ≠ [])
    (h2 : ∀ p ∈ fs, strContains p.1 "peer-review" = false) :
    handleFinalize parse render llm title baseDir engineArg fs =
      Except.error "No Stage2 review files found. Please run peer_review first." ∧
    strContains "No Stage2 review files found. Please run peer_review first."
      "Stage2" = true := by
  have hrev : fs.filter (fun p => reviewFilter p.1) = [] :=
    List.filter_eq_nil_iff.mpr (fun p hp => by simp [reviewFilter, h2 p hp])
  have hs2 : stage2List parse render fs = [] := by
    unfold stage2List
    rw [hrev]
    rfl
  constructor
  · unfold handleFinalize
    rw [if_neg h1, if_pos hs2]
  · decide

/-- **C3, witness.** -/
theorem C3_witness :
    handleFinalize parseNone renderConst llmOk "t" "B" (some "e")
      [("m1-answer.md", "A1"), ("query.txt", "Q")] =
      Except.error "No Stage2 review files found. Please run peer_review first." :=
  (C3_finalize_requires_stage2 parseNone renderConst llmOk "t" "B" (some "e")
    [("m1-answer.md", "A1"), ("query.txt", "Q")] (by decide) (by decide)).1

/-- **C7, counterexample.**  A `.council` directory located only in the 5th
parent directory is *not* found: the loop's first iteration re-checks the
cwd, so only parents 1–4 are ever visited and the resolver falls back
(`none` = the non-existent `<cwd>/.council`). -/
theorem C7_counterexample :
    findCouncilDir (fun k => k == 5) 10 = none := by decide

/-- **C7, amended.**  The resolver returns `<cwd>/.council` when the cwd has
one; otherwise the walk visits the cwd again and then only parents 1–4,
returning the first ancestor (index ≤ 4) that has `.council`; when no
ancestor up to index 4 (or up to the last existing parent) has one, it falls
back to `<cwd>/.council`. -/
theorem C7_amended_resolver_checks_four_parents (h : Nat → Bool) (n : Nat) :
    (∀ k, k ≤ 4 → k ≤ n → (∀ j, j < k → h j = false) → h k = true →
      findCouncilDir h n = some k) ∧
    ((∀ k, k ≤ 4 → k ≤ n → h k = false) → findCouncilDir h n = none) := by
  constructor
  · intro k hk4 hkn hprev hk
    interval_cases k
    · simp [findCouncilDir, hk]
    · have h0 := hprev 0 (by omega)
      have hn0 : 0 < n := by omega
      simp [findCouncilDir, findCouncilLoop, h0, hk, hn0]
    · have h0 := hprev 0 (by omega)
      have h1 := hprev 1 (by omega)
      have hn0 : 0 < n := by omega
      have hn1 : 1 < n := by omega
      simp [findCouncilDir, findCouncilLoop, h0, h1, hk, hn0, hn1]
    · have h0 := hprev 0 (by omega)
      have h1 := hprev 1 (by omega)
      have h2 := hprev 2 (by omega)
      have hn0 : 0 < n := by omega
      have hn1 : 1 < n := by omega
      have hn2 : 2 < n := by omega
      simp [findCouncilDir, findCouncilLoop, h0, h1, h2, hk, hn0, hn1, hn2]
    · have h0 := hprev 0 (by omega)
      have h1 := hprev 1 (by omega)
      have h2 := hprev 2 (by omega)
      have h3 := hprev 3 (by omega)
      have hn0 : 0 < n := by omega
      have hn1 : 1 < n := by omega
      have hn2 : 2 < n := by omega
      have hn3 : 3 < n := by omega
      simp [findCouncilDir, findCouncilLoop, h0, h1, h2, h3, hk, hn0, hn1, hn2, hn3]
  · intro hall
    rcases Nat.lt_or_ge n 5 with hn | hn
    · interval_cases n
      · simp [findCouncilDir, findCouncilLoop, hall 0 (by omega) (by omega)]
      · simp [findCouncilDir, findCouncilLoop,
          hall 0 (by omega) (by omega), hall 1 (by omega) (by omega)]
      · simp [findCouncilDir, findCouncilLoop,
          hall 0 (by omega) (by omega), hall 1 (by omega) (by omega),
          hall 2 (by omega) (by omega)]
      · simp [findCouncilDir, findCouncilLoop,
          hall 0 (by omega) (by omega), hall 1 (by omega) (by omega),
          hall 2 (by omega) (by omega), hall 3 (by omega) (by omega)]
      · simp [findCouncilDir, findCouncilLoop,
          hall 0 (by omega) (by omega), hall 1 (by omega) (by omega),
          hall 2 (by omega) (by omega), hall 3 (by omega) (by omega),
          hall 4 (by omega) (by omega)]
    · have h0 := hall 0 (by omega) (by omega)
      have h1 := hall 1 (by omega) (by omega)
      have h2 := hall 2 (by omega) (by omega)
      have h3 := hall 3 (by omega) (by omega)
      have h4 := hall 4 (by omega) (by omega)
      have hn0 : 0 < n := by omega
      have hn1 : 1 < n := by omega
      have hn2 : 2 < n := by omega
      have hn3 : 3 < n := by omega
      have hn4 : 4 < n := by omega
      simp [findCouncilDir, findCouncilLoop, h0, h1, h2, h3, h4,
        hn0, hn1, hn2, hn3, hn4]

/-- **C7, amended, witness.**  A `.council` in the 2nd parent is found. -/
theorem C7_amended_witness :
    findCouncilDir (fun k => k == 2) 10 = some 2 :=
  (C7_amended_resolver_checks_four_parents (fun k => k == 2) 10).1 2
    (by omega) (by omega)
    (by intro j hj; interval_cases j <;> rfl) rfl

/-- All-ASCII byte length is the character count. -/
theorem sum_utf8_ascii (l : List Char) (h : ∀ c ∈ l, c.utf8Size = 1) :
    (l.map Char.utf8Size).sum = l.length := by
  induction l with
  | nil => simp
  | cons c t ih =>
    simp only [List.map_cons, List.sum_cons, List.length_cons,
      h c (List.mem_cons_self _ _), ih (fun x hx => h x (List.mem_cons_of_mem _ hx))]
    omega

/-- Byte-wise take on all-ASCII text is character-wise take. -/
theorem takeBytes_ascii (l : List Char) (m : Nat)
    (h : ∀ c ∈ l, c.utf8Size = 1) (hm : m ≤ l.length) :
    takeBytes l m = some (l.take m) := by
  induction l generalizing m with
  | nil =>
    have : m = 0 := by simpa using hm
    subst this
    rfl
  | cons c t ih =>
    cases m with
    | zero => rfl
    | succ m =>
      have hc : c.utf8Size = 1 := h c (List.mem_cons_self _ _)
      have ht : ∀ x ∈ t, x.utf8Size = 1 := fun x hx => h x (List.mem_cons_of_mem _ hx)
      have hm2 : m ≤ t.length := by simpa using hm
      simp [takeBytes, hc, ih m ht hm2]

set_option maxRecDepth 8000 in
/-- **C9, counterexample.**  On an output of 201 characters whose 200th byte
falls inside a two-byte character, the preview computation fails (the byte
slice `&text[..200]` panics), refuting both the "first 200 characters" and
the "never fails" parts of the claim. -/
theorem C9_counterexample :
    previewText (String.mk (List.replicate 199 'a' ++ ['é', 'x'])) 200 = none ∧
    200 < (String.mk (List.replicate 199 'a' ++ ['é', 'x'])).data.length := by
  constructor
  · rfl
  · decide

/-- **C9, amended.**  The preview is byte-based, not character-based: text
whose UTF-8 byte length fits the limit is returned unchanged; for all-ASCII
text (bytes = characters) the preview is the first `maxLen` characters
followed by `"..."` when longer, and never fails.  (When the limit falls
inside a multi-byte character the slice panics — see the counterexample.) -/
theorem C9_amended_preview_is_byte_based (s : String) (m : Nat) :
    (strBytes s ≤ m → previewText s m = some s) ∧
    ((∀ c ∈ s.data, c.utf8Size = 1) →
      previewText s m =
        some (if s.data.length ≤ m then s else String.mk (s.data.take m) ++ "...")) := by
  constructor
  · intro h
    simp [previewText, h]
  · intro hA
    have hb : strBytes s = s.data.length := sum_utf8_ascii s.data hA
    by_cases hle : s.data.length ≤ m
    · unfold previewText
      rw [hb]
      simp only [if_pos hle]
    · unfold previewText
      rw [hb]
      simp only [if_neg hle]
      rw [takeBytes_ascii s.data m hA (by omega)]
      rfl

/-- **C9, amended, witness.** -/
theorem C9_amended_witness : previewText "hello" 3 = some "hel..." := by
  rw [(C9_amended_preview_is_byte_based "hello" 3).2 (by decide)]
  decide

/-- The `self_model` match test (case-insensitive equality of the loaded
answer's model with the caller-supplied name). -/
def matchesSelf (sm : String) (e : String × Json) : Bool :=
  eqIgnoreAsciiCase (answerModel e.2) sm

/-- **C4.**  When exactly one of the N loaded Stage1 answers matches the
caller-supplied `self_model` case-insensitively, exclusion leaves exactly
N−1 survivors, and the labels assigned after exclusion are exactly
`labelOf 0, …, labelOf (N−2)` — consecutive, gap-free, starting at
`"Response A"`. -/
theorem C4_exclusion_keeps_labels_consecutive (parse : String → Option Json)
    (render : Json → String) (fs : Workspace) (sm : String)
    (h1 : (stage1List parse render fs).countP (matchesSelf sm) = 1) :
    (peerSurvivors parse render fs (some sm)).length =
      (stage1List parse render fs).length - 1 ∧
    peerLabels parse render fs (some sm) =
      (List.range ((stage1List parse render fs).length - 1)).map labelOf ∧
    labelOf 0 = "Response A" := by
  have hlen : (peerSurvivors parse render fs (some sm)).length =
      (stage1List parse render fs).length - 1 := by
    unfold peerSurvivors
    rw [← List.countP_eq_length_filter]
    have he : (stage1List parse render fs).countP (keepAnswer (some sm)) =
        (stage1List parse render fs).countP (fun e => !matchesSelf sm e) := rfl
    have hs := countP_add_countP_not (stage1List parse render fs) (matchesSelf sm)
    rw [he]
    omega
  refine ⟨hlen, ?_, rfl⟩
  unfold peerLabels
  rw [hlen]

/-- **C4, witness.** -/
theorem C4_witness :
    peerLabels parseNone renderConst
      [("claude-answer.md", "ca"), ("gpt-answer.md", "ga")]
      (some "Claude") = ["Response A"] := by
  rw [(C4_exclusion_keeps_labels_consecutive parseNone renderConst
    [("claude-answer.md", "ca"), ("gpt-answer.md", "ga")] "Claude" (by decide)).2.1]
  decide

/-- Every character produced by the sanitizer lies in `[A-Za-z0-9_-]`. -/
theorem sanitizeEngine_chars (e : String) :
    ∀ c ∈ (sanitizeEngine e).data, allowedChar c = true := by
  intro c hc
  unfold sanitizeEngine at hc
  rw [show (String.mk (e.data.map (fun c => if allowedChar c then c else '-'))).data =
    e.data.map (fun c => if allowedChar c then c else '-') from rfl] at hc
  rcases List.mem_map.mp hc with ⟨a, _, ha⟩
  by_cases h : allowedChar a
  · rw [if_pos h] at ha
    rw [← ha]
    exact h
  · rw [if_neg h] at ha
    rw [← ha]
    decide

/-- **C5.**  The engine string is trimmed and defaults to `"claude"` when
(trimmed) empty; the sanitizer only produces characters in `[A-Za-z0-9_-]`;
when the dash-trimmed sanitized token is empty the written file name is
`peer-review-by-claude.md`, and otherwise the token embedded in the written
file name is the *un-trimmed* substitution result. -/
theorem C5_engine_token_untrimmed (s : String) :
    (strTrim s = "" → normEngine (some s) = "claude") ∧
    (strTrim s ≠ "" → normEngine (some s) = strTrim s) ∧
    (∀ c ∈ (sanitizeEngine (normEngine (some s))).data, allowedChar c = true) ∧
    (trimDash (sanitizeEngine (normEngine (some s))) = "" →
      reviewFileName (some s) = "peer-review-by-claude.md") ∧
    (trimDash (sanitizeEngine (normEngine (some s))) ≠ "" →
      reviewFileName (some s) =
        "peer-review-by-" ++ sanitizeEngine (normEngine (some s)) ++ ".md") := by
  refine ⟨?_, ?_, sanitizeEngine_chars _, ?_, ?_⟩
  · intro h
    simp [normEngine, h]
  · intro h
    simp [normEngine, h]
  · intro h
    unfold reviewFileName engineForFile
    simp only [if_pos h]
    rfl
  · intro h
    unfold reviewFileName engineForFile
    simp only [if_neg h]

/-- **C5, witness.**  `engine = " g!t "` trims to `"g!t"`, sanitizes to
`"g-t"` (non-empty after dash-trimming), and the un-trimmed token lands in
the file name. -/
theorem C5_witness :
    reviewFileName (some " g!t ") = "peer-review-by-g-t.md" := by
  rw [(C5_engine_token_untrimmed " g!t ").2.2.2.2 (by decide)]
  decide

/-- A parser recognizing two fixed raw contents, the second carrying a
`query` field (used by the C8 evaluations). -/
def parseTwo : String → Option Json := fun r =>
  if r = "RAW1" then some (Json.obj [])
  else if r = "RAW2" then some (Json.obj [("query", Json.str "Qx")])
  else none

/-- **C8, counterexample.**  With no fixed query file and two Stage1 JSON
answer files of which only the *second* carries a `query` field, the helper
returns the sentinel instead of that field: it inspects only the first JSON
answer file, so it does not "scan the Stage1 JSON answer files" for the
field as claimed. -/
theorem C8_counterexample :
    extractUserQuery parseTwo [("a-answer.json", "RAW1"), ("b-answer.json", "RAW2")] =
      "Unknown query" ∧
    fsRead [("a-answer.json", "RAW1"), ("b-answer.json", "RAW2")] "b-answer.json" =
      some "RAW2" ∧
    parseTwo "RAW2" = some (Json.obj [("query", Json.str "Qx")]) ∧
    jsonAnswerFilter "b-answer.json" = true := by
  exact ⟨by decide, by decide, by decide, by decide⟩

/-- **C8, amended.**  `extract_user_query` tries `query.txt`,
`user_query.txt`, `question.txt`, `input.txt` in that order (first existing
wins, trimmed); otherwise it inspects only the *first* Stage1 JSON answer
file, returning its string `query` field when present; otherwise (including
when no JSON answer file exists or the first one lacks the field) it
returns the sentinel `"Unknown query"`.  It is a total function of the
workspace state. -/
theorem C8_amended_extract_query_first_json_only (parse : String → Option Json)
    (fs : Workspace) :
    (∀ c, fsRead fs "query.txt" = some c → extractUserQuery parse fs = strTrim c) ∧
    (fsRead fs "query.txt" = none →
      ∀ c, fsRead fs "user_query.txt" = some c → extractUserQuery parse fs = strTrim c) ∧
    (fsRead fs "query.txt" = none → fsRead fs "user_query.txt" = none →
      fsRead fs "question.txt" = none → fsRead fs "input.txt" = none →
      ((fs.filter (fun p => jsonAnswerFilter p.1)).head? = none →
        extractUserQuery parse fs = "Unknown query") ∧
      (∀ name raw j s,
        (fs.filter (fun p => jsonAnswerFilter p.1)).head? = some (name, raw) →
        parse raw = some j → jGet j "query" = some (Json.str s) →
        extractUserQuery parse fs = s)) := by
  refine ⟨?_, ?_, ?_⟩
  · intro c h
    unfold extractUserQuery
    rw [h]
  · intro h0 c h
    unfold extractUserQuery
    rw [h0, h]
  · intro h0 h1 h2 h3
    constructor
    · intro hh
      unfold extractUserQuery
      rw [h0, h1, h2, h3, hh]
    · intro name raw j s hh hp hq
      unfold extractUserQuery
      rw [h0, h1, h2, h3, hh]
      dsimp only
      rw [hp]
      dsimp only
      rw [hq]

/-- **C8, amended, witness.** -/
theorem C8_amended_witness :
    extractUserQuery parseNone [("query.txt", " Q ")] = "Q" := by
  rw [(C8_amended_extract_query_first_json_only parseNone
    [("query.txt", " Q ")]).1 " Q " rfl]
  decide

/-- **C10.**  `handle_finalize` applies no trimming, no character
substitution and no empty-string fallback to a caller-supplied engine: on
every successful call with engine `e` the final answer lands at exactly
`final-answer-by-` ++ e ++ `.md`, the engine string used verbatim. -/
theorem C10_finalize_engine_verbatim (parse : String → Option Json)
    (render : Json → String) (llm : String → String → Except String String)
    (title baseDir : String) (e : String) (fs fsOut : Workspace) (v : Json)
    (h : handleFinalize parse render llm title baseDir (some e) fs =
      Except.ok (fsOut, v)) :
    finalFileName (some e) = "final-answer-by-" ++ e ++ ".md" ∧
    fsRead fsOut ("final-answer-by-" ++ e ++ ".md") ≠ none := by
  refine ⟨rfl, ?_⟩
  rcases handleFinalize_ok_shape parse render llm title baseDir (some e) fs fsOut v h with
    ⟨md, hOut⟩
  rw [hOut, show ("final-answer-by-" ++ e ++ ".md") = finalFileName (some e) from rfl,
    fsRead_fsWrite_self]
  exact fun hc => Option.noConfusion hc

set_option maxRecDepth 8000 in
/-- **C10, witness.**  A successful finalize with `engine = "a/b"` writes
`final-answer-by-a/b.md` — the separator kept verbatim. -/
theorem C10_witness :
    fsRead
      (resultFs (handleFinalize parseNone renderConst llmOk "t" "B" (some "a/b")
        [("m1-answer.md", "A1"), ("peer-review-by-x.md", "R1"), ("query.txt", "Q")]))
      "final-answer-by-a/b.md" ≠ none :=
  (C10_finalize_engine_verbatim parseNone renderConst llmOk "t" "B" "a/b"
    [("m1-answer.md", "A1"), ("peer-review-by-x.md", "R1"), ("query.txt", "Q")]
    (resultFs (handleFinalize parseNone renderConst llmOk "t" "B" (some "a/b")
      [("m1-answer.md", "A1"), ("peer-review-by-x.md", "R1"), ("query.txt", "Q")]))
    (resultVal (handleFinalize parseNone renderConst llmOk "t" "B" (some "a/b")
      [("m1-answer.md", "A1"), ("peer-review-by-x.md", "R1"), ("query.txt", "Q")]))
    rfl).2

set_option maxRecDepth 8000 in
/-- **C6, counterexample.**  With legacy `peer-review-gemini.md` (content
`"LEG"`) present, no `peer-review-by-gemini.md`, and the call made with
`engine = "gemini"`, the call succeeds, the legacy file is gone, but
`peer-review-by-gemini.md` holds the freshly written review — the original
legacy content is *not* preserved, contrary to the claim's "whatever engine
is requested". -/
theorem C6_counterexample :
    resultOk (handlePeerReview parseNone renderConst llmOk "t" "B" (some "gemini") none
      [("a-answer.md", "A"), ("peer-review-gemini.md", "LEG"), ("query.txt", "Q")]) = true ∧
    fsRead (resultFs (handlePeerReview parseNone renderConst llmOk "t" "B" (some "gemini") none
      [("a-answer.md", "A"), ("peer-review-gemini.md", "LEG"), ("query.txt", "Q")]))
      "peer-review-gemini.md" = none ∧
    fsRead (resultFs (handlePeerReview parseNone renderConst llmOk "t" "B" (some "gemini") none
      [("a-answer.md", "A"), ("peer-review-gemini.md", "LEG"), ("query.txt", "Q")]))
      "peer-review-by-gemini.md" ≠ some "LEG" := by
  exact ⟨by decide, by decide, by decide⟩

/-- **C6, amended.**  If legacy `peer-review-gemini.md` (content `c`) exists,
`peer-review-by-gemini.md` does not, no *other* file in the workspace is a
legacy `peer-review-*.md` name recovering the token `gemini`, and the
requested engine does not itself sanitize to the token `gemini`, then after
any successful `peer_review` call `peer-review-by-gemini.md` exists with the
original content `c` and the legacy file no longer exists. -/
theorem C6_amended_legacy_migration (parse : String → Option Json)
    (render : Json → String) (llm : String → String → Except String String)
    (title baseDir : String) (engineArg selfModel : Option String)
    (fs fsOut : Workspace) (v : Json) (c : String)
    (h1 : fsRead fs "peer-review-gemini.md" = some c)
    (h2 : fsRead fs "peer-review-by-gemini.md" = none)
    (h3 : engineForFile (normEngine engineArg) ≠ "gemini")
    (h4 : ∀ n ∈ fsNames fs, n ≠ "peer-review-gemini.md" →
      ¬(isLegacyName n = true ∧ legacyTok n = "gemini"))
    (h5 : handlePeerReview parse render llm title baseDir engineArg selfModel fs =
      Except.ok (fsOut, v)) :
    fsRead fsOut "peer-review-by-gemini.md" = some c ∧
    fsRead fsOut "peer-review-gemini.md" = none := by
  rcases handlePeerReview_ok_shape parse render llm title baseDir engineArg selfModel
    fs fsOut v h5 with ⟨md, hOut⟩
  have hrpdest : reviewFileName engineArg =
      destOf (engineForFile (normEngine engineArg)) := rfl
  have hrpcont : strContains (reviewFileName engineArg) "peer-review-by-" = true := by
    rw [hrpdest]
    exact strContains_destOf _
  have hrpd : reviewFileName engineArg ≠ "peer-review-by-gemini.md" := by
    intro he
    exact h3 (destOf_inj ((hrpdest.symm.trans he).trans
      (show "peer-review-by-gemini.md" = destOf "gemini" from rfl)))
  have hrpn : reviewFileName engineArg ≠ "peer-review-gemini.md" :=
    Ne.symm (ne_of_strContains hrpcont (by decide))
  have hsrc1 : fsRead (migrateBare fs (reviewFileName engineArg))
      "peer-review-gemini.md" = some c := by
    rw [migrateBare_read_ne fs _ _ (Ne.symm hrpn) (by decide)]
    exact h1
  have hdst1 : fsRead (migrateBare fs (reviewFileName engineArg))
      "peer-review-by-gemini.md" = none := by
    rw [migrateBare_read_ne fs _ _ (Ne.symm hrpd) (by decide)]
    exact h2
  have hmem1 : "peer-review-gemini.md" ∈ fsNames (migrateBare fs (reviewFileName engineArg)) :=
    mem_fsNames_of_fsRead _ _ _ hsrc1
  have huniq1 : ∀ n ∈ fsNames (migrateBare fs (reviewFileName engineArg)),
      n ≠ "peer-review-gemini.md" → ¬(isLegacyName n = true ∧ legacyTok n = "gemini") := by
    intro n hn hne
    rcases mem_fsNames_migrateBare fs _ n hn with h | h
    · subst h
      intro hcon
      rw [isLegacyName_eq_false_of_contains hrpcont] at hcon
      exact Bool.noConfusion hcon.1
    · exact h4 n h hne
  obtain ⟨hd2, hs2⟩ := migrateLoop_migrates
    (fsNames (migrateBare fs (reviewFileName engineArg)))
    (migrateBare fs (reviewFileName engineArg)) c hmem1 hsrc1 hdst1 huniq1
  rw [hOut]
  unfold peerWriteFs
  constructor
  · rw [fsRead_fsWrite_ne _ _ _ _ (Ne.symm hrpd)]
    exact hd2
  · rw [fsRead_fsWrite_ne _ _ _ _ (Ne.symm hrpn)]
    exact hs2

set_option maxRecDepth 8000 in
/-- **C6, amended, witness.**  Same workspace, engine `"claude"`: the legacy
file is migrated with its content preserved and then removed. -/
theorem C6_amended_witness :
    fsRead (resultFs (handlePeerReview parseNone renderConst llmOk "t" "B" (some "claude") none
      [("a-answer.md", "A"), ("peer-review-gemini.md", "LEG"), ("query.txt", "Q")]))
      "peer-review-by-gemini.md" = some "LEG" ∧
    fsRead (resultFs (handlePeerReview parseNone renderConst llmOk "t" "B" (some "claude") none
      [("a-answer.md", "A"), ("peer-review-gemini.md", "LEG"), ("query.txt", "Q")]))
      "peer-review-gemini.md" = none :=
  C6_amended_legacy_migration parseNone renderConst llmOk "t" "B" (some "claude") none
    [("a-answer.md", "A"), ("peer-review-gemini.md", "LEG"), ("query.txt", "Q")]
    (resultFs (handlePeerReview parseNone renderConst llmOk "t" "B" (some "claude") none
      [("a-answer.md", "A"), ("peer-review-gemini.md", "LEG"), ("query.txt", "Q")]))
    (resultVal (handlePeerReview parseNone renderConst llmOk "t" "B" (some "claude") none
      [("a-answer.md", "A"), ("peer-review-gemini.md", "LEG"), ("query.txt", "Q")]))
    "LEG" (by decide) (by decide) (by decide) (by decide) rfl

end McpCouncil
